import Mathlib

/-!
Verification of the peak-window charge-integration engine of
`energy-deposit/charge_collected.py` (the "Window Integrator" and
"Coincidence Evaluator" of the design document).

The scan in `main` walks three synchronized median-subtracted channel
columns (low / center / high neighbor channels of the 2-D array `wfs`)
tick by tick, opening an integration window when the center channel
exceeds a threshold, extending it with prefix/suffix margins, rejecting
broad three-channel coincidences as muons, and optionally gating window
closure on a coincidence in two induction-plane channel groups.

The embedding below models the three columns of `wfs` as separate
`List Int` values (`low`, `c`, `h`), one entry per time tick, and the
per-record loop body of `main` as a state-transition function `step`.
Python slices `l[a:b]` (with non-negative clamped bounds, as produced by
the code) are rendered as `(l.take b).drop a`; element access `l[t]`
inside the loop, where `t` is always in range, is rendered as
`l.getD t 0`.
-/

namespace ChargeCollected

/-- A completed pulse record: one entry appended to each of the four
parallel `*_areas` lists on window acceptance. -/
structure Pulse where
  lowSum : Int
  centerSum : Int
  highSum : Int
  totalSum : Int
deriving DecidableEq

/-- The scan configuration of `main`: `adc_threshold` (= `THRESHOLD`),
the `PREFIX`/`SUFFIX` margins (`pre`/`suf`, non-negative tick counts),
the `--induction` flag (`useInduction`), and the induction-gating
constants `INDUCTION_THRESHOLD` / `INDUCTION_WINDOW`. -/
structure Cfg where
  threshold : Int
  pre : Nat
  suf : Nat
  useInduction : Bool
  indThreshold : Int
  indWindow : Nat
deriving DecidableEq

/-- The mutable per-record scan state of `main`: the four running sums,
the two rejection counters, and the pulse records emitted so far. -/
structure ScanState where
  lowSum : Int
  centerSum : Int
  highSum : Int
  totalSum : Int
  muonCount : Nat
  inductionSkip : Nat
  records : List Pulse
deriving DecidableEq

/-- The state at the start of a record scan: all sums zero, counters
zero (per-record view), no records emitted. -/
def initState : ScanState :=
  { lowSum := 0, centerSum := 0, highSum := 0, totalSum := 0,
    muonCount := 0, inductionSkip := 0, records := [] }

/-- Sum of the Python slice `l[a:b]` (`np.sum(col[a:b])`). -/
def sliceSum (l : List Int) (a b : Nat) : Int :=
  ((l.take b).drop a).sum

/-- The pointwise row sums `low[i] + c[i] + h[i]`: `np.sum(wfs[a:b, :])`
over a block of rows is the sum of this list over the same slice. -/
def rowTotals (low c h : List Int) : List Int :=
  List.zipWith (fun a b => a + b) (List.zipWith (fun a b => a + b) low c) h

/-- `check_muon`: `np.all(wfs[time, :] > THRESHOLD)` — all three channels
strictly above threshold at the given tick. -/
def check_muon (thr l0 c0 h0 : Int) : Bool :=
  decide (l0 > thr) && decide (c0 > thr) && decide (h0 > thr)

/-- The largest element of a nonempty list (`np.max`); junk value 0 on
the empty list, which the scan never produces. -/
def listMax : List Int → Int
  | [] => 0
  | x :: xs => xs.foldl max x

/-- The smallest element of a nonempty list (`np.min`); junk value 0 on
the empty list, which the scan never produces. -/
def listMin : List Int → Int
  | [] => 0
  | x :: xs => xs.foldl min x

/-- `check_induction(ind1_wfs, ind2_wfs, time)`: clamp
`early_time = time - INDUCTION_WINDOW` at 0 (Nat subtraction), slice both
induction sequences to `[early_time : time+1]`, and require
`np.max(ind1_window) > INDUCTION_THRESHOLD` and
`-1 * np.min(ind2_window) > INDUCTION_THRESHOLD`. -/
def check_induction (indThr : Int) (indWin : Nat)
    (ind1 ind2 : List Int) (time : Nat) : Bool :=
  let earlyTime := time - indWin
  let ind1Window := (ind1.take (time + 1)).drop earlyTime
  let ind2Window := (ind2.take (time + 1)).drop earlyTime
  decide (listMax ind1Window > indThr) &&
    decide (-1 * listMin ind2Window > indThr)

/-- One iteration of the `for time in range(wfs.shape[0])` loop body of
`main`, at tick `time`, acting on the running state `s`.
The code branches on `center_sum == 0` to recognize a not-yet-open
window, clamps the prefix by `if time < prefix: prefix = time` and the
suffix by `if wfs.shape[0] < time + suffix: suffix = wfs.shape[0] - time`
(restoring the configured values immediately after use, so they act as
per-call local clamps), and resets all four sums after every window
close, accepted or not. -/
def step (cfg : Cfg) (low c h ind1 ind2 : List Int)
    (s : ScanState) (time : Nat) : ScanState :=
  if check_muon cfg.threshold (low.getD time 0) (c.getD time 0) (h.getD time 0) then
    { s with muonCount := s.muonCount + 1 }
  else if c.getD time 0 > cfg.threshold then
    if s.centerSum = 0 then
      -- Start New Window Case
      let p := if time < cfg.pre then time else cfg.pre
      { s with
        lowSum := s.lowSum + sliceSum low (time - p) (time + 1),
        centerSum := s.centerSum + sliceSum c (time - p) (time + 1),
        highSum := s.highSum + sliceSum h (time - p) (time + 1),
        totalSum := s.totalSum + sliceSum (rowTotals low c h) (time - p) (time + 1) }
    else
      -- Continue Window Case
      { s with
        lowSum := s.lowSum + low.getD time 0,
        centerSum := s.centerSum + c.getD time 0,
        highSum := s.highSum + h.getD time 0,
        totalSum := s.totalSum + (low.getD time 0 + c.getD time 0 + h.getD time 0) }
  else if s.centerSum ≠ 0 then
    -- End Window Case
    let len := c.length
    let sfx := if len < time + cfg.suf then len - time else cfg.suf
    if cfg.useInduction then
      if check_induction cfg.indThreshold cfg.indWindow ind1 ind2 time then
        { s with
          lowSum := 0, centerSum := 0, highSum := 0, totalSum := 0,
          records := s.records ++
            [{ lowSum := s.lowSum + sliceSum low time (time + sfx),
               centerSum := s.centerSum + sliceSum c time (time + sfx),
               highSum := s.highSum + sliceSum h time (time + sfx),
               totalSum := s.totalSum + sliceSum (rowTotals low c h) time (time + sfx) }] }
      else
        { s with
          lowSum := 0, centerSum := 0, highSum := 0, totalSum := 0,
          inductionSkip := s.inductionSkip + 1 }
    else
      { s with
        lowSum := 0, centerSum := 0, highSum := 0, totalSum := 0,
        records := s.records ++
          [{ lowSum := s.lowSum + sliceSum low time (time + sfx),
             centerSum := s.centerSum + sliceSum c time (time + sfx),
             highSum := s.highSum + sliceSum h time (time + sfx),
             totalSum := s.totalSum + sliceSum (rowTotals low c h) time (time + sfx) }] }
  else
    s

/-- The state after the first `n` loop iterations of the per-record scan. -/
def scanSteps (cfg : Cfg) (low c h ind1 ind2 : List Int) (n : Nat) : ScanState :=
  (List.range n).foldl (step cfg low c h ind1 ind2) initState

/-- The full per-record scan: run the loop over every tick
(`range(wfs.shape[0])`, the common column length) and stop — the code
performs no end-of-sequence flush after the loop. -/
def runScan (cfg : Cfg) (low c h ind1 ind2 : List Int) : ScanState :=
  scanSteps cfg low c h ind1 ind2 c.length

/-- The channel data extracted from one record: the collection-plane
triplet columns and, when gating is used, the two induction-plane
columns. -/
structure RecordData where
  low : List Int
  c : List Int
  h : List Int
  ind1 : List Int
  ind2 : List Int
deriving DecidableEq

/-- The batch state of `main`: the `mismatch` tally and the accumulated
per-pulse areas (the four parallel `*_areas` lists, modelled as one list
of pulse records). -/
structure BatchState where
  mismatch : Nat
  areas : List Pulse
deriving DecidableEq

/-- One iteration of the `for record in records` loop of `main`.  The
external reader `fiftyl_toolkit.Data.extract` is not part of the
repository, so a record is modelled by its extraction outcome: either
the extracted channel data, or the `ValueError` that the `try` block
catches — extraction is the first statement of the `try` body, before
any tick is scanned, so a failing record is never partially scanned.
On failure the caller tallies `mismatch += 1` and moves on; on success
the per-record scan runs and its pulse records are appended to the
batch areas. -/
def recordStep (cfg : Cfg) (s : BatchState) (r : Except Unit RecordData) : BatchState :=
  match r with
  | Except.error _ => { s with mismatch := s.mismatch + 1 }
  | Except.ok d =>
      { s with areas := s.areas ++ (runScan cfg d.low d.c d.h d.ind1 d.ind2).records }

/-- The whole record loop of `main`: fold `recordStep` over the batch,
starting from zero mismatches and no areas. -/
def runBatch (cfg : Cfg) (rs : List (Except Unit RecordData)) : BatchState :=
  rs.foldl (recordStep cfg) { mismatch := 0, areas := [] }

/-- A configuration as the design document types it, with signed fields
so that the malformed (negative) values of §7(a) are representable. -/
structure CoreConfig where
  threshold : Int
  pre : Int
  suf : Int
  useInduction : Bool
  indThreshold : Int
  indWindow : Int
deriving DecidableEq

/-- Modelled from the spec: the configuration validation of §7(a) —
"non-positive or mismatched prefix/suffix/window/threshold/
sequence-length values; raised before scanning".  The script under
`src/` hard-codes non-negative constants and extracts equal-length
columns from one rectangular array, so it contains no validation code;
this predicate renders the failure-semantics paragraph: the sequence
lengths must match and threshold, prefix, suffix and induction window
must not be negative. -/
def validConfig (cfg : CoreConfig) (low c h : List Int) : Bool :=
  decide (low.length = c.length) && decide (h.length = c.length) &&
    decide (0 ≤ cfg.threshold) && decide (0 ≤ cfg.pre) &&
    decide (0 ≤ cfg.suf) && decide (0 ≤ cfg.indWindow)

/-- Modelled from the spec: the fail-fast core entry point — validate
the configuration first and surface a `ConfigurationError` to the
caller before any tick is scanned; only a valid configuration reaches
the scan loop. -/
def runCore (cfg : CoreConfig) (low c h ind1 ind2 : List Int) :
    Except Unit (List Pulse) :=
  if validConfig cfg low c h then
    Except.ok (runScan
      { threshold := cfg.threshold, pre := cfg.pre.toNat, suf := cfg.suf.toNat,
        useInduction := cfg.useInduction, indThreshold := cfg.indThreshold,
        indWindow := cfg.indWindow.toNat } low c h ind1 ind2).records
  else
    Except.error ()

/-! ### Helper lemmas -/

/-- A Python slice `l[a:b]` with `b` in range lists exactly the elements
of `l` at the indices `a, a+1, …, b-1`. -/
theorem drop_take_eq_map (l : List Int) (a b : Nat) (hb : b ≤ l.length) :
    (l.take b).drop a = (List.range' a (b - a)).map (fun i => l.getD i 0) := by
  apply List.ext_getElem
  · simp only [List.length_drop, List.length_take, List.length_map,
      List.length_range']
    omega
  · intro i h1 h2
    have hlen : i < (l.take b).length - a := by
      simpa using h1
    have hib : i < b - a := by
      simp only [List.length_take] at hlen
      omega
    have hai : a + i < l.length := by omega
    simp only [List.getElem_drop, List.getElem_take, List.getElem_map,
      List.getElem_range'_1]
    rw [List.getD_eq_getElem l 0 hai]

/-- `sliceSum` over an in-range window is the sum of the per-index
samples of that window. -/
theorem sliceSum_eq_map (l : List Int) (a b : Nat) (hb : b ≤ l.length) :
    sliceSum l a b = ((List.range' a (b - a)).map (fun i => l.getD i 0)).sum := by
  unfold sliceSum
  rw [drop_take_eq_map l a b hb]

/-- Membership in a Python slice `l[a:b]`, characterized by index. -/
theorem mem_drop_take (l : List Int) (a b : Nat) (x : Int)
    (hb : b ≤ l.length) (hab : a ≤ b) :
    x ∈ (l.take b).drop a ↔ ∃ i, a ≤ i ∧ i < b ∧ l.getD i 0 = x := by
  rw [drop_take_eq_map l a b hb]
  simp only [List.mem_map, List.mem_range'_1]
  constructor
  · rintro ⟨i, ⟨hai, hib⟩, rfl⟩
    exact ⟨i, hai, by omega, rfl⟩
  · rintro ⟨i, hai, hib, rfl⟩
    exact ⟨i, ⟨hai, by omega⟩, rfl⟩

/-- A left fold of `max` exceeds `c` iff the seed or some element does. -/
theorem lt_foldl_max (l : List Int) :
    ∀ a c : Int, c < l.foldl max a ↔ c < a ∨ ∃ x ∈ l, c < x := by
  induction l with
  | nil => simp
  | cons y ys ih =>
    intro a c
    simp only [List.foldl_cons, ih, lt_max_iff, List.mem_cons]
    constructor
    · rintro ((hca | hcy) | ⟨x, hx, hcx⟩)
      · exact Or.inl hca
      · exact Or.inr ⟨y, Or.inl rfl, hcy⟩
      · exact Or.inr ⟨x, Or.inr hx, hcx⟩
    · rintro (hca | ⟨x, (rfl | hx), hcx⟩)
      · exact Or.inl (Or.inl hca)
      · exact Or.inl (Or.inr hcx)
      · exact Or.inr ⟨x, hx, hcx⟩

/-- A left fold of `min` goes below `c` iff the seed or some element does. -/
theorem foldl_min_lt (l : List Int) :
    ∀ a c : Int, l.foldl min a < c ↔ a < c ∨ ∃ x ∈ l, x < c := by
  induction l with
  | nil => simp
  | cons y ys ih =>
    intro a c
    simp only [List.foldl_cons, ih, min_lt_iff, List.mem_cons]
    constructor
    · rintro ((hca | hcy) | ⟨x, hx, hcx⟩)
      · exact Or.inl hca
      · exact Or.inr ⟨y, Or.inl rfl, hcy⟩
      · exact Or.inr ⟨x, Or.inr hx, hcx⟩
    · rintro (hca | ⟨x, (rfl | hx), hcx⟩)
      · exact Or.inl (Or.inl hca)
      · exact Or.inl (Or.inr hcx)
      · exact Or.inr ⟨x, hx, hcx⟩

/-- `np.max` of a nonempty list exceeds `c` iff some element does. -/
theorem listMax_gt_iff (l : List Int) (hne : l ≠ []) (c : Int) :
    c < listMax l ↔ ∃ x ∈ l, c < x := by
  cases l with
  | nil => exact absurd rfl hne
  | cons y ys =>
    simp only [listMax, lt_foldl_max, List.mem_cons]
    constructor
    · rintro (hcy | ⟨x, hx, hcx⟩)
      · exact ⟨y, Or.inl rfl, hcy⟩
      · exact ⟨x, Or.inr hx, hcx⟩
    · rintro ⟨x, (rfl | hx), hcx⟩
      · exact Or.inl hcx
      · exact Or.inr ⟨x, hx, hcx⟩

/-- `np.min` of a nonempty list goes below `c` iff some element does. -/
theorem listMin_lt_iff (l : List Int) (hne : l ≠ []) (c : Int) :
    listMin l < c ↔ ∃ x ∈ l, x < c := by
  cases l with
  | nil => exact absurd rfl hne
  | cons y ys =>
    simp only [listMin, foldl_min_lt, List.mem_cons]
    constructor
    · rintro (hcy | ⟨x, hx, hcx⟩)
      · exact ⟨y, Or.inl rfl, hcy⟩
      · exact ⟨x, Or.inr hx, hcx⟩
    · rintro ⟨x, (rfl | hx), hcx⟩
      · exact Or.inl hcx
      · exact Or.inr ⟨x, hx, hcx⟩

/-- `np.sum` of a block of rows of `wfs` is the sum of the three
per-column slice sums, provided the columns have equal lengths. -/
theorem sliceSum_rowTotals (low c h : List Int)
    (hl : low.length = c.length) (hh : h.length = c.length) (a b : Nat) :
    sliceSum (rowTotals low c h) a b =
      sliceSum low a b + sliceSum c a b + sliceSum h a b := by
  unfold sliceSum rowTotals
  rw [List.take_zipWith, List.take_zipWith, List.drop_zipWith, List.drop_zipWith]
  rw [← List.sum_add_sum_eq_sum_zipWith_of_length_eq, ←
    List.sum_add_sum_eq_sum_zipWith_of_length_eq]
  · simp [hl]
  · simp [List.length_zipWith, hl, hh]

/-- Unrolling one step of the scan loop. -/
theorem scanSteps_succ (cfg : Cfg) (low c h ind1 ind2 : List Int) (n : Nat) :
    scanSteps cfg low c h ind1 ind2 (n + 1) =
      step cfg low c h ind1 ind2 (scanSteps cfg low c h ind1 ind2 n) n := by
  unfold scanSteps
  rw [List.range_succ, List.foldl_append]
  rfl

/-! ### Claim theorems -/

/-- C1 counterexample: scanning low = high = zeros,
center = [0,50,120,130,40,0,0] with threshold 100, prefix 1, suffix 1
and gating disabled emits exactly one pulse record, but its center_sum
is 340 (= 50 + 120 + 130 + 40, the opening sum over ticks 1–2, the
continuation at tick 3, and the closing sum over tick 4), not 290. -/
theorem scenarioB_center_sum_not_290 :
    (runScan
        { threshold := 100, pre := 1, suf := 1, useInduction := false,
          indThreshold := 40, indWindow := 15 }
        [0, 0, 0, 0, 0, 0, 0] [0, 50, 120, 130, 40, 0, 0] [0, 0, 0, 0, 0, 0, 0]
        [] []).records.map Pulse.centerSum = [340] ∧
    (runScan
        { threshold := 100, pre := 1, suf := 1, useInduction := false,
          indThreshold := 40, indWindow := 15 }
        [0, 0, 0, 0, 0, 0, 0] [0, 50, 120, 130, 40, 0, 0] [0, 0, 0, 0, 0, 0, 0]
        [] []).records.map Pulse.centerSum ≠ [290] := by
  decide

/-- C1 (amended): in Scenario B the scan is idle through tick 1, opens
the window at tick 2 (prefix clamps to 1, summing ticks 1–2 for a
center sum of 170), continues at tick 3 (center sum 300), closes at
tick 4 (suffix sums tick 4 only), and emits exactly one pulse record,
whose center_sum is 340. -/
theorem scenarioB_single_pulse :
    (scanSteps
        { threshold := 100, pre := 1, suf := 1, useInduction := false,
          indThreshold := 40, indWindow := 15 }
        [0, 0, 0, 0, 0, 0, 0] [0, 50, 120, 130, 40, 0, 0] [0, 0, 0, 0, 0, 0, 0]
        [] [] 2).centerSum = 0 ∧
    (scanSteps
        { threshold := 100, pre := 1, suf := 1, useInduction := false,
          indThreshold := 40, indWindow := 15 }
        [0, 0, 0, 0, 0, 0, 0] [0, 50, 120, 130, 40, 0, 0] [0, 0, 0, 0, 0, 0, 0]
        [] [] 3).centerSum = 170 ∧
    (scanSteps
        { threshold := 100, pre := 1, suf := 1, useInduction := false,
          indThreshold := 40, indWindow := 15 }
        [0, 0, 0, 0, 0, 0, 0] [0, 50, 120, 130, 40, 0, 0] [0, 0, 0, 0, 0, 0, 0]
        [] [] 4).centerSum = 300 ∧
    (scanSteps
        { threshold := 100, pre := 1, suf := 1, useInduction := false,
          indThreshold := 40, indWindow := 15 }
        [0, 0, 0, 0, 0, 0, 0] [0, 50, 120, 130, 40, 0, 0] [0, 0, 0, 0, 0, 0, 0]
        [] [] 4).records = [] ∧
    (scanSteps
        { threshold := 100, pre := 1, suf := 1, useInduction := false,
          indThreshold := 40, indWindow := 15 }
        [0, 0, 0, 0, 0, 0, 0] [0, 50, 120, 130, 40, 0, 0] [0, 0, 0, 0, 0, 0, 0]
        [] [] 5).records =
      [{ lowSum := 0, centerSum := 340, highSum := 0, totalSum := 340 }] ∧
    (runScan
        { threshold := 100, pre := 1, suf := 1, useInduction := false,
          indThreshold := 40, indWindow := 15 }
        [0, 0, 0, 0, 0, 0, 0] [0, 50, 120, 130, 40, 0, 0] [0, 0, 0, 0, 0, 0, 0]
        [] []).records =
      [{ lowSum := 0, centerSum := 340, highSum := 0, totalSum := 340 }] := by
  decide

/-- C3: a muon tick — all three channels strictly above threshold —
only increments the muon counter: the running sums, the window state
(`center_sum`), the induction counter and the emitted records are left
unchanged, so such a tick never opens, continues or closes a window. -/
theorem muon_tick_only_counts (cfg : Cfg) (low c h ind1 ind2 : List Int)
    (s : ScanState) (t : Nat)
    (hl : low.getD t 0 > cfg.threshold) (hc : c.getD t 0 > cfg.threshold)
    (hh : h.getD t 0 > cfg.threshold) :
    step cfg low c h ind1 ind2 s t = { s with muonCount := s.muonCount + 1 } := by
  have hmu : check_muon cfg.threshold (low.getD t 0) (c.getD t 0) (h.getD t 0)
      = true := by
    unfold check_muon
    rw [Bool.and_eq_true, Bool.and_eq_true]
    exact ⟨⟨decide_eq_true hl, decide_eq_true hc⟩, decide_eq_true hh⟩
  unfold step
  rw [if_pos hmu]

/-- C3 witness: a concrete muon tick at a concrete state. -/
theorem muon_tick_only_counts_witness :
    (([150, 0] : List Int).getD 0 0 >
        (Cfg.mk 100 5 5 false 40 15).threshold) ∧
    (([160, 0] : List Int).getD 0 0 >
        (Cfg.mk 100 5 5 false 40 15).threshold) ∧
    (([170, 0] : List Int).getD 0 0 >
        (Cfg.mk 100 5 5 false 40 15).threshold) ∧
    step (Cfg.mk 100 5 5 false 40 15) [150, 0] [160, 0] [170, 0] [] []
        { lowSum := 1, centerSum := 2, highSum := 3, totalSum := 6,
          muonCount := 4, inductionSkip := 5, records := [] } 0 =
      { lowSum := 1, centerSum := 2, highSum := 3, totalSum := 6,
        muonCount := 5, inductionSkip := 5, records := [] } :=
  ⟨by decide, by decide, by decide,
    muon_tick_only_counts (Cfg.mk 100 5 5 false 40 15) [150, 0] [160, 0]
      [170, 0] [] []
      { lowSum := 1, centerSum := 2, highSum := 3, totalSum := 6,
        muonCount := 4, inductionSkip := 5, records := [] } 0
      (by decide) (by decide) (by decide)⟩

/-- C2 counterexample: with threshold 0, prefix = suffix = 1,
low = high = zeros and center = [-2, 1, 1, 1], the state before tick 2
is ACCUMULATING (center_sum = -1 ≠ 0), tick 2 is not a muon tick and
center[2] > threshold, yet after tick 2 center_sum is exactly 0 — the
code's IDLE encoding — so the scan does not remain ACCUMULATING, and at
tick 3 it re-runs the Open prefix summation (center_sum becomes
1 + 1 = 2, where a Continue step would have produced 1). -/
theorem continue_can_collapse_to_idle :
    (scanSteps
        { threshold := 0, pre := 1, suf := 1, useInduction := false,
          indThreshold := 40, indWindow := 15 }
        [0, 0, 0, 0] [-2, 1, 1, 1] [0, 0, 0, 0] [] [] 2).centerSum ≠ 0 ∧
    check_muon 0 (([0, 0, 0, 0] : List Int).getD 2 0)
        (([-2, 1, 1, 1] : List Int).getD 2 0)
        (([0, 0, 0, 0] : List Int).getD 2 0) = false ∧
    ([-2, 1, 1, 1] : List Int).getD 2 0 > 0 ∧
    (scanSteps
        { threshold := 0, pre := 1, suf := 1, useInduction := false,
          indThreshold := 40, indWindow := 15 }
        [0, 0, 0, 0] [-2, 1, 1, 1] [0, 0, 0, 0] [] [] 3).centerSum = 0 ∧
    (scanSteps
        { threshold := 0, pre := 1, suf := 1, useInduction := false,
          indThreshold := 40, indWindow := 15 }
        [0, 0, 0, 0] [-2, 1, 1, 1] [0, 0, 0, 0] [] [] 4).centerSum = 2 := by
  decide

/-- C2 (amended): at a tick where `center_sum ≠ 0` (the code's
ACCUMULATING encoding), the tick is not a muon tick and the center
sample is strictly above threshold, the scan adds exactly low[t],
center[t] and high[t] to the respective running sums and their sum to
total_sum, emits nothing and touches no counter; it remains
ACCUMULATING if and only if the updated center sum is nonzero — a tick
that drives the running center sum exactly to zero silently returns the
scan to IDLE, after which a later above-threshold tick re-runs the Open
prefix summation. -/
theorem continue_adds_single_tick (cfg : Cfg) (low c h ind1 ind2 : List Int)
    (s : ScanState) (t : Nat)
    (hacc : s.centerSum ≠ 0)
    (hmu : check_muon cfg.threshold (low.getD t 0) (c.getD t 0) (h.getD t 0)
      = false)
    (hthr : c.getD t 0 > cfg.threshold) :
    step cfg low c h ind1 ind2 s t =
      { s with lowSum := s.lowSum + low.getD t 0,
               centerSum := s.centerSum + c.getD t 0,
               highSum := s.highSum + h.getD t 0,
               totalSum := s.totalSum +
                 (low.getD t 0 + c.getD t 0 + h.getD t 0) } ∧
    ((step cfg low c h ind1 ind2 s t).centerSum ≠ 0 ↔
      s.centerSum + c.getD t 0 ≠ 0) := by
  have heq : step cfg low c h ind1 ind2 s t =
      { s with lowSum := s.lowSum + low.getD t 0,
               centerSum := s.centerSum + c.getD t 0,
               highSum := s.highSum + h.getD t 0,
               totalSum := s.totalSum +
                 (low.getD t 0 + c.getD t 0 + h.getD t 0) } := by
    have hmu' : ¬check_muon cfg.threshold (low.getD t 0) (c.getD t 0)
        (h.getD t 0) = true := by
      rw [hmu]
      exact Bool.false_ne_true
    unfold step
    rw [if_neg hmu', if_pos hthr, if_neg hacc]
  exact ⟨heq, by rw [heq]⟩

/-- C2 witness: a concrete in-window, non-muon, above-threshold tick. -/
theorem continue_adds_single_tick_witness :
    ((ScanState.mk 1 200 3 204 0 0 []).centerSum ≠ 0) ∧
    (check_muon (Cfg.mk 100 5 5 false 40 15).threshold
        (([7, 0] : List Int).getD 0 0) (([150, 0] : List Int).getD 0 0)
        (([9, 0] : List Int).getD 0 0) = false) ∧
    (([150, 0] : List Int).getD 0 0 > (Cfg.mk 100 5 5 false 40 15).threshold) ∧
    (step (Cfg.mk 100 5 5 false 40 15) [7, 0] [150, 0] [9, 0] [] []
        (ScanState.mk 1 200 3 204 0 0 []) 0 =
      { lowSum := 1 + 7, centerSum := 200 + 150, highSum := 3 + 9,
        totalSum := 204 + (7 + 150 + 9), muonCount := 0, inductionSkip := 0,
        records := [] } ∧
      ((step (Cfg.mk 100 5 5 false 40 15) [7, 0] [150, 0] [9, 0] [] []
          (ScanState.mk 1 200 3 204 0 0 []) 0).centerSum ≠ 0 ↔
        (200 : Int) + 150 ≠ 0)) :=
  ⟨by decide, by decide, by decide,
    continue_adds_single_tick (Cfg.mk 100 5 5 false 40 15) [7, 0] [150, 0]
      [9, 0] [] [] (ScanState.mk 1 200 3 204 0 0 []) 0 (by decide) (by decide)
      (by decide)⟩

/-- C6: with gating enabled, a close attempt (in-window tick whose
center sample is not above threshold) at which the Coincidence
Evaluator returns false emits no pulse record, increments
`induction_rejected_count` by exactly one, resets all four running sums
to zero, and returns the scan to IDLE (`center_sum = 0`). -/
theorem induction_reject_discards (cfg : Cfg) (low c h ind1 ind2 : List Int)
    (s : ScanState) (t : Nat)
    (hacc : s.centerSum ≠ 0)
    (hthr : ¬c.getD t 0 > cfg.threshold)
    (hind : cfg.useInduction = true)
    (hchk : check_induction cfg.indThreshold cfg.indWindow ind1 ind2 t = false) :
    step cfg low c h ind1 ind2 s t =
      { s with lowSum := 0, centerSum := 0, highSum := 0, totalSum := 0,
               inductionSkip := s.inductionSkip + 1 } := by
  have hmu' : ¬check_muon cfg.threshold (low.getD t 0) (c.getD t 0)
      (h.getD t 0) = true := by
    unfold check_muon
    rw [Bool.and_eq_true, Bool.and_eq_true]
    rintro ⟨⟨-, hcd⟩, -⟩
    exact hthr (of_decide_eq_true hcd)
  have hchk' : ¬check_induction cfg.indThreshold cfg.indWindow ind1 ind2 t
      = true := by
    rw [hchk]
    exact Bool.false_ne_true
  unfold step
  rw [if_neg hmu', if_neg hthr, if_pos hacc, if_pos hind, if_neg hchk']

/-- C6 witness: a concrete gated close attempt that the evaluator
rejects (the induction windows stay inside the thresholds). -/
theorem induction_reject_discards_witness :
    ((ScanState.mk 5 300 7 312 1 2 []).centerSum ≠ 0) ∧
    (¬([0, 40] : List Int).getD 1 0 >
        (Cfg.mk 100 5 5 true 40 15).threshold) ∧
    ((Cfg.mk 100 5 5 true 40 15).useInduction = true) ∧
    (check_induction (Cfg.mk 100 5 5 true 40 15).indThreshold
        (Cfg.mk 100 5 5 true 40 15).indWindow [0, 10] [0, -10] 1 = false) ∧
    step (Cfg.mk 100 5 5 true 40 15) [0, 0] [0, 40] [0, 0] [0, 10] [0, -10]
        (ScanState.mk 5 300 7 312 1 2 []) 1 =
      { lowSum := 0, centerSum := 0, highSum := 0, totalSum := 0,
        muonCount := 1, inductionSkip := 3, records := [] } :=
  ⟨by decide, by decide, by decide, by decide,
    induction_reject_discards (Cfg.mk 100 5 5 true 40 15) [0, 0] [0, 40]
      [0, 0] [0, 10] [0, -10] (ScanState.mk 5 300 7 312 1 2 []) 1
      (by decide) (by decide) (by decide) (by decide)⟩

/-- C4: for any tick `t < L` of a scan over length-`L` sequences, the
code's prefix clamp (`if time < prefix: prefix = time`) equals
`min(prefix, t)` and its suffix clamp
(`if length < time + suffix: suffix = length - time`) equals
`min(suffix, L - t)`; the opening summation `sliceSum l (t - ep) (t+1)`
covers exactly the samples at ticks `t - ep, …, t` inclusive
(`ep = min(prefix, t)`), the closing summation
`sliceSum l t (t + es)` covers exactly the samples at ticks
`t, …, t + es - 1` (`es = min(suffix, L - t)`), and every index of
either range lies inside `[0, L)`. -/
theorem window_bounds (L t p sfx : Nat) (hL : t < L) :
    ((if t < p then t else p) = min p t) ∧
    ((if L < t + sfx then L - t else sfx) = min sfx (L - t)) ∧
    (∀ i ∈ List.range' (t - min p t) (min p t + 1), i < L) ∧
    (∀ i ∈ List.range' t (min sfx (L - t)), i < L) ∧
    (∀ l : List Int, l.length = L →
      sliceSum l (t - min p t) (t + 1) =
        ((List.range' (t - min p t) (min p t + 1)).map
          (fun i => l.getD i 0)).sum) ∧
    (∀ l : List Int, l.length = L →
      sliceSum l t (t + min sfx (L - t)) =
        ((List.range' t (min sfx (L - t))).map (fun i => l.getD i 0)).sum) := by
  refine ⟨?_, ?_, ?_, ?_, ?_, ?_⟩
  · split <;> omega
  · split <;> omega
  · intro i hi
    rw [List.mem_range'_1] at hi
    omega
  · intro i hi
    rw [List.mem_range'_1] at hi
    omega
  · intro l hlen
    rw [sliceSum_eq_map l _ _ (by omega)]
    have hw : t + 1 - (t - min p t) = min p t + 1 := by omega
    rw [hw]
  · intro l hlen
    rw [sliceSum_eq_map l _ _ (by omega)]
    have hw : t + min sfx (L - t) - t = min sfx (L - t) := by omega
    rw [hw]

/-- C4 witness: the clamp at a concrete tick and lengths. -/
theorem window_bounds_witness :
    (3 : Nat) < 5 ∧ ((if (3 : Nat) < 2 then (3 : Nat) else 2) = min 2 3) :=
  ⟨by decide, (window_bounds 5 3 2 4 (by decide)).1⟩

/-- C5: for a closing tick `t` in range of both induction sequences,
`check_induction` returns true iff some sample of `ind_a` in the
backward window `[max(0, t - induction_window), t]` strictly exceeds
`induction_threshold` — that is, the window's maximum exceeds it — and
some sample of `ind_b` in the same window is strictly below
`-induction_threshold` — that is, the window's minimum is below it.
As a Lean function of its four inputs it is deterministic and
side-effect free by construction. -/
theorem check_induction_iff (indThr : Int) (indWin : Nat)
    (ind1 ind2 : List Int) (t : Nat)
    (h1 : t < ind1.length) (h2 : t < ind2.length) :
    check_induction indThr indWin ind1 ind2 t = true ↔
      ((∃ i, t - indWin ≤ i ∧ i ≤ t ∧ indThr < ind1.getD i 0) ∧
       (∃ i, t - indWin ≤ i ∧ i ≤ t ∧ ind2.getD i 0 < -indThr)) := by
  have hne1 : (ind1.take (t + 1)).drop (t - indWin) ≠ [] := by
    apply List.ne_nil_of_length_pos
    rw [List.length_drop, List.length_take]
    omega
  have hne2 : (ind2.take (t + 1)).drop (t - indWin) ≠ [] := by
    apply List.ne_nil_of_length_pos
    rw [List.length_drop, List.length_take]
    omega
  simp only [check_induction, Bool.and_eq_true, decide_eq_true_eq]
  apply and_congr
  · rw [gt_iff_lt, listMax_gt_iff _ hne1]
    constructor
    · rintro ⟨x, hx, hlt⟩
      obtain ⟨i, hai, hit, rfl⟩ :=
        (mem_drop_take ind1 (t - indWin) (t + 1) x (by omega) (by omega)).mp hx
      exact ⟨i, hai, by omega, hlt⟩
    · rintro ⟨i, hai, hit, hlt⟩
      exact ⟨ind1.getD i 0,
        (mem_drop_take ind1 (t - indWin) (t + 1) _ (by omega) (by omega)).mpr
          ⟨i, hai, by omega, rfl⟩, hlt⟩
  · have hneg : indThr < -1 * listMin ((ind2.take (t + 1)).drop (t - indWin)) ↔
        listMin ((ind2.take (t + 1)).drop (t - indWin)) < -indThr := by
      omega
    rw [gt_iff_lt, hneg, listMin_lt_iff _ hne2]
    constructor
    · rintro ⟨x, hx, hlt⟩
      obtain ⟨i, hai, hit, rfl⟩ :=
        (mem_drop_take ind2 (t - indWin) (t + 1) x (by omega) (by omega)).mp hx
      exact ⟨i, hai, by omega, hlt⟩
    · rintro ⟨i, hai, hit, hlt⟩
      exact ⟨ind2.getD i 0,
        (mem_drop_take ind2 (t - indWin) (t + 1) _ (by omega) (by omega)).mpr
          ⟨i, hai, by omega, rfl⟩, hlt⟩

/-- C5 witness: a coincidence at a concrete closing tick — tick 1 of
`ind_a` exceeds 40 and tick 1 of `ind_b` goes below -40 inside the
backward window of tick 2. -/
theorem check_induction_iff_witness :
    (2 < ([0, 50, 0] : List Int).length) ∧
    (2 < ([0, -50, 0] : List Int).length) ∧
    check_induction 40 15 [0, 50, 0] [0, -50, 0] 2 = true :=
  ⟨by decide, by decide,
    (check_induction_iff 40 15 [0, 50, 0] [0, -50, 0] 2 (by decide)
        (by decide)).mpr
      ⟨⟨1, by decide, by decide, by decide⟩,
        ⟨1, by decide, by decide, by decide⟩⟩⟩

/-- C7: the scan output is exactly the state after the last loop
iteration — the code performs no end-of-sequence flush — so when the
ticks run out with a window still open (`center_sum ≠ 0`), that window
contributes no pulse record and no counter increment: the records and
both counters of the full scan are those accumulated strictly during
tick processing. -/
theorem open_tail_discarded (cfg : Cfg) (low c h ind1 ind2 : List Int)
    (hacc : (runScan cfg low c h ind1 ind2).centerSum ≠ 0) :
    (runScan cfg low c h ind1 ind2).records =
      (scanSteps cfg low c h ind1 ind2 c.length).records ∧
    (runScan cfg low c h ind1 ind2).muonCount =
      (scanSteps cfg low c h ind1 ind2 c.length).muonCount ∧
    (runScan cfg low c h ind1 ind2).inductionSkip =
      (scanSteps cfg low c h ind1 ind2 c.length).inductionSkip :=
  ⟨rfl, rfl, rfl⟩

/-- C7 witness: the spec's tail-truncation example — threshold 100,
center = [50,150,150,150] ends mid-pulse: the scan ends ACCUMULATING
(center_sum = 500 ≠ 0), emits zero pulse records and increments no
counter. -/
theorem open_tail_discarded_witness :
    ((runScan
        { threshold := 100, pre := 5, suf := 5, useInduction := false,
          indThreshold := 40, indWindow := 15 }
        [0, 0, 0, 0] [50, 150, 150, 150] [0, 0, 0, 0] [] []).centerSum ≠ 0) ∧
    ((runScan
        { threshold := 100, pre := 5, suf := 5, useInduction := false,
          indThreshold := 40, indWindow := 15 }
        [0, 0, 0, 0] [50, 150, 150, 150] [0, 0, 0, 0] [] []).records =
      (scanSteps
        { threshold := 100, pre := 5, suf := 5, useInduction := false,
          indThreshold := 40, indWindow := 15 }
        [0, 0, 0, 0] [50, 150, 150, 150] [0, 0, 0, 0] [] []
        ([50, 150, 150, 150] : List Int).length).records) ∧
    ((runScan
        { threshold := 100, pre := 5, suf := 5, useInduction := false,
          indThreshold := 40, indWindow := 15 }
        [0, 0, 0, 0] [50, 150, 150, 150] [0, 0, 0, 0] [] []).records = []) ∧
    ((runScan
        { threshold := 100, pre := 5, suf := 5, useInduction := false,
          indThreshold := 40, indWindow := 15 }
        [0, 0, 0, 0] [50, 150, 150, 150] [0, 0, 0, 0] [] []).muonCount = 0) ∧
    ((runScan
        { threshold := 100, pre := 5, suf := 5, useInduction := false,
          indThreshold := 40, indWindow := 15 }
        [0, 0, 0, 0] [50, 150, 150, 150] [0, 0, 0, 0] [] []).inductionSkip
      = 0) :=
  ⟨by decide,
    (open_tail_discarded
      { threshold := 100, pre := 5, suf := 5, useInduction := false,
        indThreshold := 40, indWindow := 15 }
      [0, 0, 0, 0] [50, 150, 150, 150] [0, 0, 0, 0] [] [] (by decide)).1,
    by decide, by decide, by decide⟩

/-- Folding the record loop from a state whose mismatch tally is offset
by `k` yields the same areas and a tally offset by `k`: the mismatch
counter and the pulse output evolve independently. -/
theorem foldl_recordStep_shift (cfg : Cfg) :
    ∀ (rs : List (Except Unit RecordData)) (m k : Nat) (ar : List Pulse),
      (rs.foldl (recordStep cfg) ⟨m + k, ar⟩).mismatch =
        (rs.foldl (recordStep cfg) ⟨m, ar⟩).mismatch + k ∧
      (rs.foldl (recordStep cfg) ⟨m + k, ar⟩).areas =
        (rs.foldl (recordStep cfg) ⟨m, ar⟩).areas := by
  intro rs
  induction rs with
  | nil => exact fun m k ar => ⟨rfl, rfl⟩
  | cons r rs ih =>
    intro m k ar
    cases r with
    | error e =>
      have h1 : (Except.error e :: rs).foldl (recordStep cfg)
            (⟨m + k, ar⟩ : BatchState) =
          rs.foldl (recordStep cfg) ⟨m + k + 1, ar⟩ := rfl
      have h2 : (Except.error e :: rs).foldl (recordStep cfg)
            (⟨m, ar⟩ : BatchState) =
          rs.foldl (recordStep cfg) ⟨m + 1, ar⟩ := rfl
      have hlit : (⟨m + k + 1, ar⟩ : BatchState) = ⟨m + 1 + k, ar⟩ := by
        rw [Nat.add_right_comm]
      rw [h1, h2, hlit]
      exact ih (m + 1) k ar
    | ok d =>
      have h1 : (Except.ok d :: rs).foldl (recordStep cfg)
            (⟨m + k, ar⟩ : BatchState) =
          rs.foldl (recordStep cfg)
            ⟨m + k, ar ++ (runScan cfg d.low d.c d.h d.ind1 d.ind2).records⟩ :=
        rfl
      have h2 : (Except.ok d :: rs).foldl (recordStep cfg)
            (⟨m, ar⟩ : BatchState) =
          rs.foldl (recordStep cfg)
            ⟨m, ar ++ (runScan cfg d.low d.c d.h d.ind1 d.ind2).records⟩ :=
        rfl
      rw [h1, h2]
      exact ih m k (ar ++ (runScan cfg d.low d.c d.h d.ind1 d.ind2).records)

/-- C8: a record whose extraction fails with a shape error, wherever it
sits in the batch, is tallied as exactly one mismatch and contributes
no pulse record; the remaining records before and after it are
processed exactly as they would be without it, so the batch never
aborts and the failed record is never partially processed. -/
theorem failed_record_tallied_once (cfg : Cfg)
    (rs1 rs2 : List (Except Unit RecordData)) :
    (runBatch cfg (rs1 ++ Except.error () :: rs2)).mismatch =
      (runBatch cfg (rs1 ++ rs2)).mismatch + 1 ∧
    (runBatch cfg (rs1 ++ Except.error () :: rs2)).areas =
      (runBatch cfg (rs1 ++ rs2)).areas := by
  unfold runBatch
  rw [List.foldl_append, List.foldl_append, List.foldl_cons]
  have hmid : recordStep cfg (rs1.foldl (recordStep cfg) ⟨0, []⟩)
        (Except.error ()) =
      ⟨(rs1.foldl (recordStep cfg) ⟨0, []⟩).mismatch + 1,
        (rs1.foldl (recordStep cfg) ⟨0, []⟩).areas⟩ := rfl
  rw [hmid]
  exact foldl_recordStep_shift cfg rs2
    (rs1.foldl (recordStep cfg) ⟨0, []⟩).mismatch 1
    (rs1.foldl (recordStep cfg) ⟨0, []⟩).areas

/-- C9: a malformed configuration — mismatched sequence lengths, or a
negative threshold, prefix, suffix or induction window — makes the core
entry point return a configuration error to the caller before the scan
loop runs: no sums are accumulated and no pulse record is emitted. -/
theorem config_error_fails_fast (cfg : CoreConfig) (low c h ind1 ind2 : List Int)
    (hbad : low.length ≠ c.length ∨ h.length ≠ c.length ∨
      cfg.threshold < 0 ∨ cfg.pre < 0 ∨ cfg.suf < 0 ∨ cfg.indWindow < 0) :
    runCore cfg low c h ind1 ind2 = Except.error () := by
  unfold runCore
  rw [if_neg]
  intro hval
  simp only [validConfig, Bool.and_eq_true, decide_eq_true_eq] at hval
  obtain ⟨⟨⟨⟨⟨e1, e2⟩, e3⟩, e4⟩, e5⟩, e6⟩ := hval
  rcases hbad with hb | hb | hb | hb | hb | hb
  · exact hb e1
  · exact hb e2
  · omega
  · omega
  · omega
  · omega

/-- C9 witness: a concrete malformed configuration (mismatched lengths
and a negative prefix) is rejected. -/
theorem config_error_fails_fast_witness :
    (([0] : List Int).length ≠ ([0, 0] : List Int).length ∨
      ([0, 0] : List Int).length ≠ ([0, 0] : List Int).length ∨
      (CoreConfig.mk 100 (-1) 5 false 40 15).threshold < 0 ∨
      (CoreConfig.mk 100 (-1) 5 false 40 15).pre < 0 ∨
      (CoreConfig.mk 100 (-1) 5 false 40 15).suf < 0 ∨
      (CoreConfig.mk 100 (-1) 5 false 40 15).indWindow < 0) ∧
    runCore (CoreConfig.mk 100 (-1) 5 false 40 15) [0] [0, 0] [0, 0] [] [] =
      Except.error () :=
  ⟨by decide,
    config_error_fails_fast (CoreConfig.mk 100 (-1) 5 false 40 15) [0] [0, 0]
      [0, 0] [] [] (by decide)⟩

/-- The C10 invariant: the running total equals the sum of the three
per-channel running sums, and every emitted pulse record satisfies the
same relation between its fields. -/
def sumsConsistent (s : ScanState) : Prop :=
  s.totalSum = s.lowSum + s.centerSum + s.highSum ∧
    ∀ p ∈ s.records, p.totalSum = p.lowSum + p.centerSum + p.highSum

/-- Each scan step preserves the C10 invariant, provided the three
channel columns have equal lengths (they are columns of one rectangular
array in the source). -/
theorem step_preserves_sumsConsistent (cfg : Cfg) (low c h ind1 ind2 : List Int)
    (hl : low.length = c.length) (hh : h.length = c.length)
    (s : ScanState) (t : Nat) (hs : sumsConsistent s) :
    sumsConsistent (step cfg low c h ind1 ind2 s t) := by
  obtain ⟨htot, hrec⟩ := hs
  simp only [step]
  split_ifs <;>
    refine ⟨?_, ?_⟩ <;>
      dsimp only <;>
        first
          | exact htot
          | exact hrec
          | (rw [sliceSum_rowTotals low c h hl hh]; omega)
          | omega
          | (intro p hp
             rcases List.mem_append.mp hp with hp | hp
             · exact hrec p hp
             · rcases List.mem_singleton.mp hp with rfl
               dsimp only
               rw [sliceSum_rowTotals low c h hl hh]
               omega)

/-- C10: at every tick of every scan over an equal-length channel
triplet, the running sums satisfy
`total_sum = low_sum + center_sum + high_sum`, and every pulse record
emitted so far satisfies the same relation between its fields. -/
theorem total_sum_invariant (cfg : Cfg) (low c h ind1 ind2 : List Int)
    (n : Nat) (hl : low.length = c.length) (hh : h.length = c.length) :
    sumsConsistent (scanSteps cfg low c h ind1 ind2 n) := by
  induction n with
  | zero =>
    exact ⟨rfl, fun p hp => nomatch hp⟩
  | succ n ih =>
    rw [scanSteps_succ]
    exact step_preserves_sumsConsistent cfg low c h ind1 ind2 hl hh _ n ih

/-- C10 witness: the invariant at every tick of a concrete scan over an
input with non-trivial low/high channels. -/
theorem total_sum_invariant_witness :
    (([1, 2, 3, 4] : List Int).length = ([0, 150, 120, 0] : List Int).length) ∧
    (([5, 6, 7, 8] : List Int).length = ([0, 150, 120, 0] : List Int).length) ∧
    sumsConsistent (scanSteps
      { threshold := 100, pre := 2, suf := 2, useInduction := false,
        indThreshold := 40, indWindow := 15 }
      [1, 2, 3, 4] [0, 150, 120, 0] [5, 6, 7, 8] [] [] 4) :=
  ⟨by decide, by decide,
    total_sum_invariant
      { threshold := 100, pre := 2, suf := 2, useInduction := false,
        indThreshold := 40, indWindow := 15 }
      [1, 2, 3, 4] [0, 150, 120, 0] [5, 6, 7, 8] [] [] 4 (by decide)
      (by decide)⟩

end ChargeCollected
